import Mathlib

/-!
Shallow embedding of the data-preparation and aggregation pipeline of the
Titanic survival dashboard (src/app.py, src/titanic/app.py, src/titanic/graph.py).

Tables are lists of rows; missing values (pandas NaN) are `Option.none`;
machine floats are modelled as exact rationals, so every arithmetic step of
the source (mean, quantile interpolation, binning edges, rounding) is
translated exactly.  Pandas operations are translated operation by
operation:
* `Series.value_counts()` drops missing values and sorts by descending count
  (`valueCounts`, `value_counts_col`); on a categorical-dtype column it
  returns every declared category, observed or not (`valueCountsCat`);
* `Series.mode()[0]` takes the most frequent values sorted ascending and the
  element at position 0 (`seriesModeHead`);
* `pd.cut(age, bins := [0,13,19,60,100], right := false)` assigns the
  half-open intervals of `age_group`;
* `pd.qcut(fare, 4, labels, duplicates := drop)` computes linearly
  interpolated quantile edges, deduplicates them and fails when the edge
  count no longer matches the four labels (`fareQcut`);
* `pd.cut(fare, bins := 3)` pads the range by 0.1 percent and splits it into
  three equal-width right-closed intervals (`cut3`);
* `groupby(feature)` sorts the distinct non-missing keys ascending and
  aggregates per key (`groupKeys`, `groupMean`).

Where pandas sorting is unstable at ties, a stable sort is used; no theorem
below depends on the order of tied entries.  Rows carry the values of the
categorical `age_group` and `fare_group` columns as string keys and the
columns' declared category lists are passed separately where the categorical
dtype changes behaviour (composition via `valueCountsCat`).  For the rate
figures, `groupby` on a categorical column under the default
`observed := false` would additionally emit each unobserved category with an
undefined (NaN) mean; those value-less rows are outside the modelled rate
results, which cover the observed groups.
-/

namespace TitanicDash

/-- Distinct elements of a list, keeping the first occurrence of each, in
first-encounter order. -/
def dedupFirst {α : Type} [DecidableEq α] : List α → List α
  | [] => []
  | a :: as => a :: (dedupFirst as).filter (fun b => b != a)

/-- Descending order on the second (count/rate) component of a pair, used for
`value_counts()` and `sort_values(ascending := False)`. -/
def sndDesc {α : Type} {β : Type} [LinearOrder β] (a b : α × β) : Prop :=
  b.2 ≤ a.2

instance {α β : Type} [LinearOrder β] : DecidableRel (@sndDesc α β _) :=
  fun a b => inferInstanceAs (Decidable (b.2 ≤ a.2))

instance {α β : Type} [LinearOrder β] : IsTotal (α × β) sndDesc :=
  ⟨fun a b => le_total b.2 a.2⟩

instance {α β : Type} [LinearOrder β] : IsTrans (α × β) sndDesc :=
  ⟨fun _ _ _ h1 h2 => le_trans h2 h1⟩

/-- `Series.value_counts()` on a column without missing values: one entry per
distinct value with its number of occurrences, most frequent first. -/
def valueCounts {α : Type} [DecidableEq α] (xs : List α) : List (α × ℕ) :=
  List.insertionSort sndDesc ((dedupFirst xs).map (fun v => (v, xs.count v)))

theorem mem_dedupFirst {α : Type} [DecidableEq α] {a : α} :
    ∀ {l : List α}, a ∈ dedupFirst l ↔ a ∈ l := by
  intro l
  induction l with
  | nil => simp [dedupFirst]
  | cons b bs ih =>
    simp only [dedupFirst, List.mem_cons, List.mem_filter, bne_iff_ne, ne_eq, decide_not]
    constructor
    · rintro (h | ⟨h, _⟩)
      · exact Or.inl h
      · exact Or.inr (ih.mp h)
    · rintro (h | h)
      · exact Or.inl h
      · by_cases hab : a = b
        · exact Or.inl hab
        · exact Or.inr ⟨ih.mpr h, by simpa using hab⟩

theorem nodup_dedupFirst {α : Type} [DecidableEq α] :
    ∀ (l : List α), (dedupFirst l).Nodup := by
  intro l
  induction l with
  | nil => simp [dedupFirst]
  | cons b bs ih =>
    refine List.Nodup.cons ?_ (ih.filter _)
    intro hb
    rcases List.mem_filter.mp hb with ⟨_, hne⟩
    simp at hne

theorem filter_ne_of_not_mem {α : Type} [DecidableEq α] {d : List α} {a : α}
    (h : a ∉ d) : d.filter (fun b => b != a) = d := by
  apply List.filter_eq_self.mpr
  intro c hc
  simp only [bne_iff_ne, ne_eq, decide_eq_true_eq]
  exact fun hca => h (hca ▸ hc)

theorem sum_map_filter_ne {α : Type} [DecidableEq α] (f : α → ℕ) :
    ∀ {d : List α}, d.Nodup → ∀ {a : α}, a ∈ d →
      (d.map f).sum = f a + ((d.filter (fun b => b != a)).map f).sum := by
  intro d
  induction d with
  | nil => simp
  | cons b bs ih =>
    intro hnd a ha
    rcases List.mem_cons.mp ha with hba | ha
    · subst hba
      rw [List.filter_cons]
      simp [filter_ne_of_not_mem (List.nodup_cons.mp hnd).1]
    · have hne : (b != a) = true := by
        simp only [bne_iff_ne, ne_eq, decide_eq_true_eq]
        exact fun h => (List.nodup_cons.mp hnd).1 (h ▸ ha)
      rw [List.filter_cons, if_pos hne]
      have := ih (List.nodup_cons.mp hnd).2 ha
      simp only [List.map_cons, List.sum_cons, this]
      omega

theorem sum_counts_dedupFirst {α : Type} [DecidableEq α] :
    ∀ (l : List α), ((dedupFirst l).map (fun v => l.count v)).sum = l.length := by
  intro l
  induction l with
  | nil => simp [dedupFirst]
  | cons a as ih =>
    have hcount : ∀ v, v ≠ a → (a :: as).count v = as.count v := by
      intro v hv
      simp [List.count_cons, hv]
    by_cases hmem : a ∈ as
    · have hsplit : ((dedupFirst as).map (fun v => as.count v)).sum
          = as.count a + (((dedupFirst as).filter (fun b => b != a)).map
            (fun v => as.count v)).sum :=
        sum_map_filter_ne (fun v => as.count v)
          (nodup_dedupFirst as) (mem_dedupFirst.mpr hmem)
      have hmapeq :
          ((dedupFirst as).filter (fun b => b != a)).map (fun v => (a :: as).count v)
            = ((dedupFirst as).filter (fun b => b != a)).map (fun v => as.count v) := by
        apply List.map_congr_left
        intro v hv
        exact hcount v (by simpa using (List.mem_filter.mp hv).2)
      simp only [dedupFirst, List.map_cons, List.sum_cons, hmapeq, List.count_cons_self,
        List.length_cons]
      omega
    · have hfilter : (dedupFirst as).filter (fun b => b != a) = dedupFirst as :=
        filter_ne_of_not_mem (fun h => hmem (mem_dedupFirst.mp h))
      have hmapeq :
          (dedupFirst as).map (fun v => (a :: as).count v)
            = (dedupFirst as).map (fun v => as.count v) := by
        apply List.map_congr_left
        intro v hv
        exact hcount v (fun h => hmem (h ▸ mem_dedupFirst.mp hv))
      simp only [dedupFirst, List.map_cons, List.sum_cons, hfilter, hmapeq, ih,
        List.count_cons_self, List.length_cons]
      have : as.count a = 0 := List.count_eq_zero.mpr hmem
      omega

theorem valueCounts_sum {α : Type} [DecidableEq α] (xs : List α) :
    ((valueCounts xs).map (fun p => p.2)).sum = xs.length := by
  have hperm : List.Perm (valueCounts xs) ((dedupFirst xs).map (fun v => (v, xs.count v))) :=
    List.perm_insertionSort _ _
  have := (hperm.map (fun p : α × ℕ => p.2)).sum_eq
  rw [this, List.map_map]
  simpa using sum_counts_dedupFirst xs

theorem valueCounts_mem {α : Type} [DecidableEq α] {xs : List α} {p : α × ℕ}
    (h : p ∈ valueCounts xs) : p.1 ∈ xs ∧ p.2 = xs.count p.1 := by
  have hperm : List.Perm (valueCounts xs) ((dedupFirst xs).map (fun v => (v, xs.count v))) :=
    List.perm_insertionSort _ _
  rcases List.mem_map.mp (hperm.mem_iff.mp h) with ⟨v, hv, hvp⟩
  cases hvp
  exact ⟨mem_dedupFirst.mp hv, rfl⟩

theorem valueCounts_complete {α : Type} [DecidableEq α] {xs : List α} {v : α}
    (h : v ∈ xs) : (v, xs.count v) ∈ valueCounts xs := by
  have hperm : List.Perm (valueCounts xs) ((dedupFirst xs).map (fun v => (v, xs.count v))) :=
    List.perm_insertionSort _ _
  exact hperm.mem_iff.mpr (List.mem_map_of_mem _ (mem_dedupFirst.mpr h))

theorem valueCounts_head_max {α : Type} [DecidableEq α] {xs : List α} {p : α × ℕ}
    (h : (valueCounts xs).head? = some p) : ∀ v ∈ xs, xs.count v ≤ p.2 := by
  intro v hv
  have hsorted : List.Sorted sndDesc (valueCounts xs) := List.sorted_insertionSort _ _
  cases hl : valueCounts xs with
  | nil => rw [hl] at h; cases h
  | cons q rest =>
    rw [hl] at h
    have hq : q = p := by cases h; rfl
    subst hq
    have hmem := valueCounts_complete hv
    rw [hl] at hmem hsorted
    rcases List.mem_cons.mp hmem with he | ht
    · rw [← he]
    · exact List.rel_of_sorted_cons hsorted _ ht

theorem valueCounts_head_mem {α : Type} [DecidableEq α] {xs : List α} {p : α × ℕ}
    (h : (valueCounts xs).head? = some p) : p.1 ∈ xs ∧ p.2 = xs.count p.1 := by
  cases hl : valueCounts xs with
  | nil => rw [hl] at h; cases h
  | cons q rest =>
    rw [hl] at h
    have hq : q = p := by cases h; rfl
    exact valueCounts_mem (by rw [hl]; exact hq ▸ List.mem_cons_self q rest)

theorem valueCounts_ne_nil {α : Type} [DecidableEq α] {xs : List α} (h : xs ≠ []) :
    valueCounts xs ≠ [] := by
  intro hnil
  have hlen : (valueCounts xs).length = 0 := by rw [hnil]; rfl
  simp only [valueCounts, List.length_insertionSort, List.length_map] at hlen
  cases xs with
  | nil => exact h rfl
  | cons a as => simp [dedupFirst] at hlen

/-- Ascending order on strings, the order pandas uses to sort group keys and
mode values. -/
def strAsc (a b : String) : Prop := a ≤ b

instance : DecidableRel strAsc :=
  fun a b => decidable_of_iff (a.toList ≤ b.toList) String.le_iff_toList_le.symm

instance : IsTotal String strAsc := ⟨fun a b => le_total a b⟩

instance : IsTrans String strAsc := ⟨fun _ _ _ h1 h2 => le_trans h1 h2⟩

/-- Labels of the age bins (src/app.py line 34). -/
inductive AgeGroup
  | child
  | teenager
  | adult
  | senior
deriving DecidableEq, Repr

/-- Labels of the fare bins: the four quartile labels of qcut and the three
equal-width labels of the cut fallback (src/app.py lines 43 and 47). -/
inductive FareLabel
  | q1
  | q2
  | q3
  | q4
  | low
  | medium
  | high
deriving DecidableEq, Repr

/-- `pd.cut(age, bins := [0, 13, 19, 60, 100], right := False)` on one value
(src/app.py line 35): half-open intervals, values outside `[0, 100)` get a
missing group.  `include_lowest := True` has no effect when `right := False`
because the first interval is already left-closed. -/
def age_group (a : ℚ) : Option AgeGroup :=
  if a < 0 then none
  else if a < 13 then some AgeGroup.child
  else if a < 19 then some AgeGroup.teenager
  else if a < 60 then some AgeGroup.adult
  else if a < 100 then some AgeGroup.senior
  else none

/-- `Series.min()` of a nonempty column (0 as the unused empty default). -/
def listMin : List ℚ → ℚ
  | [] => 0
  | a :: t => t.foldl min a

/-- `Series.max()` of a nonempty column (0 as the unused empty default). -/
def listMax : List ℚ → ℚ
  | [] => 0
  | a :: t => t.foldl max a

/-- Linearly interpolated quantile of an ascending-sorted nonempty list,
pandas' default interpolation: the value at fractional position
`q * (n - 1)`. -/
def quantileOfSorted (s : List ℚ) (q : ℚ) : ℚ :=
  let pos := q * ((s.length : ℚ) - 1)
  let i := (⌊pos⌋).toNat
  match s[i]?, s[i + 1]? with
  | some a, some b => a + (pos - (i : ℚ)) * (b - a)
  | some a, none => a
  | none, _ => 0

/-- Collapse equal adjacent elements of a sorted list, as
`np.unique` does on the quantile edges under `duplicates := drop`. -/
def dedupAdj : List ℚ → List ℚ
  | [] => []
  | [a] => [a]
  | a :: b :: t => if a = b then dedupAdj (b :: t) else a :: dedupAdj (b :: t)

/-- Assign one fare to the four right-closed quartile intervals with the
lowest edge included (qcut uses `include_lowest := True`). -/
def qcutAssign (e0 e1 e2 e3 e4 x : ℚ) : Option FareLabel :=
  if x < e0 then none
  else if x ≤ e1 then some FareLabel.q1
  else if x ≤ e2 then some FareLabel.q2
  else if x ≤ e3 then some FareLabel.q3
  else if x ≤ e4 then some FareLabel.q4
  else none

/-- `pd.qcut(fare, q := 4, labels, duplicates := drop)` (src/app.py line 43,
src/titanic/app.py line 26): compute the five quantile edges, drop duplicate
edges, and fail with the pandas label-mismatch ValueError when fewer than
five distinct edges remain for the four labels. -/
def fareQcut (fares : List ℚ) : Except String (List (Option FareLabel)) :=
  if fares.isEmpty then Except.error "qcut of an empty series" else
  let s := List.insertionSort (fun a b : ℚ => a ≤ b) fares
  match dedupAdj [quantileOfSorted s 0, quantileOfSorted s (1/4),
      quantileOfSorted s (1/2), quantileOfSorted s (3/4), quantileOfSorted s 1] with
  | [e0, e1, e2, e3, e4] => Except.ok (fares.map (qcutAssign e0 e1 e2 e3 e4))
  | _ => Except.error "Bin labels must be one fewer than the number of bin edges"

/-- Assign one fare to three right-closed equal-width intervals
(`right := True`, `include_lowest := False`, pd.cut defaults). -/
def cutAssign3 (b0 b1 b2 b3 x : ℚ) : Option FareLabel :=
  if x ≤ b0 then none
  else if x ≤ b1 then some FareLabel.low
  else if x ≤ b2 then some FareLabel.medium
  else if x ≤ b3 then some FareLabel.high
  else none

/-- `pd.cut(fare, bins := 3, labels := [Low, Medium, High])` (src/app.py
line 47): three equal-width bins over the fare range; a constant range is
widened by 0.001 on both sides (absolute when the value is 0, else
relative), otherwise the lowest edge is lowered by 0.1 percent of the range
so the minimum is included in the first right-closed interval. -/
def cut3 (fares : List ℚ) : List (Option FareLabel) :=
  let mn := listMin fares
  let mx := listMax fares
  if mn = mx then
    let adj : ℚ := if mn = 0 then 1/1000 else |mn| / 1000
    let lo := mn - adj
    let hi := mx + adj
    let w := (hi - lo) / 3
    fares.map (cutAssign3 lo (lo + w) (lo + 2 * w) hi)
  else
    let adj := (mx - mn) / 1000
    let w := (mx - mn) / 3
    fares.map (cutAssign3 (mn - adj) (mn + w) (mn + 2 * w) mx)

/-- The fare_group derivation of src/app.py lines 41 to 47: try quartile
binning, and recover from its ValueError with the three equal-width bins. -/
def fare_group_app (fares : List ℚ) : List (Option FareLabel) :=
  match fareQcut fares with
  | Except.ok r => r
  | Except.error _ => cut3 fares

/-- `Series.mean()` of the non-missing ages; `none` models the NaN mean of an
all-missing column (src/app.py line 22). -/
def meanAge (ages : List (Option ℚ)) : Option ℚ :=
  let xs := ages.filterMap id
  if xs.isEmpty then none else some (xs.sum / (xs.length : ℚ))

/-- The largest occurrence count among the distinct non-missing values of a
column. -/
def modeMaxCount (col : List (Option String)) : ℕ :=
  (dedupFirst (col.filterMap id)).foldr
    (fun v m => max ((col.filterMap id).count v) m) 0

/-- `Series.mode()[0]` (src/app.py line 26): the non-missing values of
maximal count, sorted ascending, element 0; `none` models the KeyError the
subscript raises when the mode series is empty. -/
def seriesModeHead (col : List (Option String)) : Option String :=
  (List.insertionSort strAsc
    ((dedupFirst (col.filterMap id)).filter
      (fun v => (col.filterMap id).count v == modeMaxCount col))).head?

/-- Spec-stated tie-break, for comparison with `seriesModeHead`: the spec
says mode ties are broken "by first-encountered order", so this picks, among
the most frequent non-missing values, the one whose first occurrence comes
first. -/
def specFirstEncounteredMode (col : List (Option String)) : Option String :=
  (dedupFirst (col.filterMap id)).foldl
    (fun acc v =>
      match acc with
      | none => some v
      | some b =>
        if (col.filterMap id).count b < (col.filterMap id).count v then some v
        else acc)
    none

/-- `sex.map (male to Male, female to Female)` (src/app.py line 30); any
other value becomes missing, as `Series.map` does. -/
def sexLabelMap (s : String) : Option String :=
  if s = "male" then some "Male" else if s = "female" then some "Female" else none

/-- One row of the raw passenger table, with the columns the pipeline reads.
`age` and `embarked` may be missing in the raw data (spec section 3). -/
structure RawRow where
  survived : ℕ
  pclass : ℕ
  sex : String
  age : Option ℚ
  sibsp : ℕ
  parch : ℕ
  fare : ℚ
  embarked : Option String
deriving DecidableEq, Repr

/-- One row of the prepared table: the raw columns after imputation plus the
derived columns of src/app.py lines 20 to 47.  `age` stays missing only when
the whole age column was missing (mean NaN filled by NaN); `age_group`,
`sex_label` and `fare_group` are missing exactly where pandas produces NaN. -/
structure PrepRow where
  survived : ℕ
  pclass : ℕ
  sex : String
  age : Option ℚ
  sibsp : ℕ
  parch : ℕ
  fare : ℚ
  embarked : String
  sex_label : Option String
  age_group : Option AgeGroup
  family_size : ℕ
  fare_group : Option FareLabel
deriving DecidableEq, Repr

/-- Build one prepared row from a raw row, the precomputed age mean, the
embarked mode and this row's fare group. -/
def mkPrepRow (meanA : Option ℚ) (emb : String) (r : RawRow)
    (fg : Option FareLabel) : PrepRow :=
  let a : Option ℚ :=
    match r.age with
    | some x => some x
    | none => meanA
  { survived := r.survived
    pclass := r.pclass
    sex := r.sex
    age := a
    sibsp := r.sibsp
    parch := r.parch
    fare := r.fare
    embarked :=
      match r.embarked with
      | some e => e
      | none => emb
    sex_label := sexLabelMap r.sex
    age_group := a.bind age_group
    family_size := r.sibsp + r.parch + 1
    fare_group := fg }

/-- The cleaning and feature-engineering steps shared by both app variants,
in source order: mean-impute age, mode-impute embarked (the subscript
`mode()[0]` raises when no non-missing value exists), derive the features,
and bin fares; `useFallback` selects between the try/except of src/app.py
lines 41 to 47 and the unguarded qcut of src/titanic/app.py line 26. -/
def clean (useFallback : Bool) (raw : List RawRow) :
    Except String (List PrepRow) :=
  let meanA := meanAge (raw.map (fun r => r.age))
  match seriesModeHead (raw.map (fun r => r.embarked)) with
  | none => Except.error "KeyError: 0 on the empty mode series"
  | some emb =>
    let fares := raw.map (fun r => r.fare)
    match fareQcut fares with
    | Except.ok fg => Except.ok (List.zipWith (mkPrepRow meanA emb) raw fg)
    | Except.error e =>
      if useFallback then
        Except.ok (List.zipWith (mkPrepRow meanA emb) raw (cut3 fares))
      else Except.error e

/-- The preparation of src/app.py lines 19 to 52: cleaning runs only when the
raw table is nonempty (`if not df.empty`), then the survivors table filters
the prepared rows with `survived == 1`. -/
def prepare_app (raw : List RawRow) :
    Except String (List PrepRow × List PrepRow) :=
  if raw.isEmpty then Except.ok ([], [])
  else
    match clean true raw with
    | Except.ok prep =>
      Except.ok (prep, prep.filter (fun r => r.survived == 1))
    | Except.error e => Except.error e

/-- The preparation of src/titanic/app.py lines 14 to 32: no empty-table
guard and no qcut fallback; any cleaning failure propagates. -/
def prepare_titanic (raw : List RawRow) :
    Except String (List PrepRow × List PrepRow) :=
  match clean false raw with
  | Except.ok prep =>
    Except.ok (prep, prep.filter (fun r => r.survived == 1))
  | Except.error e => Except.error e

/-- The enumerated selection set of features (src/app.py FEATURE_OPTIONS). -/
inductive Feature
  | pclass
  | sexLabel
  | ageGroup
  | embarked
  | familySize
  | fareGroup
deriving DecidableEq, Repr

/-- Display names of the age groups (src/app.py line 34). -/
def ageGroupName : AgeGroup → String
  | AgeGroup.child => "Child"
  | AgeGroup.teenager => "Teenager"
  | AgeGroup.adult => "Adult"
  | AgeGroup.senior => "Senior"

/-- Display names of the fare groups (src/app.py lines 43 and 47). -/
def fareLabelName : FareLabel → String
  | FareLabel.q1 => "Q1 (Low)"
  | FareLabel.q2 => "Q2"
  | FareLabel.q3 => "Q3"
  | FareLabel.q4 => "Q4 (High)"
  | FareLabel.low => "Low"
  | FareLabel.medium => "Medium"
  | FareLabel.high => "High"

/-- The value of a feature column in one prepared row, as the string key the
grouping operations see; `none` is pandas NaN. -/
def featVal (f : Feature) (r : PrepRow) : Option String :=
  match f with
  | Feature.pclass => some (toString r.pclass)
  | Feature.sexLabel => r.sex_label
  | Feature.ageGroup => r.age_group.map ageGroupName
  | Feature.embarked => some r.embarked
  | Feature.familySize => some (toString r.family_size)
  | Feature.fareGroup => r.fare_group.map fareLabelName

/-- Project a prepared table onto one feature column and the survived
column: the only data the rate operations read. -/
def projTable (f : Feature) (t : List PrepRow) : List (Option String × ℕ) :=
  t.map (fun r => (featVal f r, r.survived))

/-- The group keys of `groupby(feature)`: distinct non-missing feature
values, sorted ascending (groupby drops NaN keys and sorts keys). -/
def groupKeys (t : List (Option String × ℕ)) : List String :=
  List.insertionSort strAsc (dedupFirst (t.filterMap (fun p => p.1)))

/-- Number of rows of one group. -/
def groupCount (t : List (Option String × ℕ)) (k : String) : ℕ :=
  t.countP (fun p => p.1 == some k)

/-- Sum of the survived column over one group. -/
def groupSurvSum (t : List (Option String × ℕ)) (k : String) : ℕ :=
  ((t.filter (fun p => p.1 == some k)).map (fun p => p.2)).sum

/-- `groupby(feature)[survived].mean()` for one group key. -/
def groupMean (t : List (Option String × ℕ)) (k : String) : ℚ :=
  (groupSurvSum t k : ℚ) / (groupCount t k : ℚ)

/-- `calculate_survival_rate` of src/titanic/app.py lines 37 to 41: group by
the feature, take the mean of survived per group, multiply by 100.  No
rounding. -/
def calculate_survival_rate (t : List (Option String × ℕ)) :
    List (String × ℚ) :=
  (groupKeys t).map (fun k => (k, groupMean t k * 100))

/-- Round to the nearest integer, ties to even: the rounding of
`numpy.round` used by `Series.round` (modelled on exact rationals). -/
def roundHalfEven (x : ℚ) : ℤ :=
  let f := ⌊x⌋
  let r := x - (f : ℚ)
  if r < 1/2 then f
  else if 1/2 < r then f + 1
  else if f % 2 = 0 then f else f + 1

/-- `Series.round(n)`: round to `n` decimal places, ties to even. -/
def roundq (n : ℕ) (x : ℚ) : ℚ :=
  (roundHalfEven (x * (10 : ℚ) ^ n) : ℚ) / (10 : ℚ) ^ n

/-- The rate table built inside src/app.py's `get_survival_fig` lines 87 to
91: per-group mean of survived times 100, rounded to two decimals, sorted by
rate descending. -/
def survival_rate_app (t : List (Option String × ℕ)) : List (String × ℚ) :=
  List.insertionSort sndDesc
    ((groupKeys t).map (fun k => (k, roundq 2 (groupMean t k * 100))))

/-- src/app.py `get_survival_fig` lines 81 to 91: `none` is the "No data
available" placeholder returned when the passed table is empty; otherwise
the rate is computed from the module-level full table `df` (`full_df`
here), not from the `data_df` argument. -/
def get_survival_fig_app (full_df data_df : List PrepRow) (f : Feature) :
    Option (List (String × ℚ)) :=
  if data_df.isEmpty then none
  else some (survival_rate_app (projTable f full_df))

/-- src/titanic/app.py `get_survival_fig` lines 73 to 75: the rate is
computed from whichever table is passed. -/
def get_survival_fig_titanic (data_df : List PrepRow) (f : Feature) :
    List (String × ℚ) :=
  calculate_survival_rate (projTable f data_df)

/-- `Series.value_counts()` on a plain-dtype (object or integer) feature
column: missing values dropped (`dropna` default), then counts of the
distinct observed values.  The two categorical-dtype columns follow
`valueCountsCat` instead. -/
def value_counts_col (col : List (Option String)) : List (String × ℕ) :=
  valueCounts (col.filterMap id)

/-- src/titanic/app.py `get_composition_fig` lines 45 to 59 on a plain-dtype
feature column (pclass, sex_label, embarked, family_size): the plotted
composition data is `data_df[feature].value_counts()`.  For the
categorical-dtype age_group and fare_group columns the same source line
behaves as `get_composition_fig_titanic_cat`. -/
def get_composition_fig_titanic (t : List PrepRow) (f : Feature) :
    List (String × ℕ) :=
  value_counts_col (t.map (featVal f))

/-- The categories `pd.cut` declares on the age_group column (src/app.py
line 34), present in the dtype whether or not they are observed. -/
def ageGroupCats : List String := ["Child", "Teenager", "Adult", "Senior"]

/-- The categories `pd.qcut` declares on the fare_group column when quartile
binning succeeds (src/app.py line 43). -/
def fareQ4Cats : List String := ["Q1 (Low)", "Q2", "Q3", "Q4 (High)"]

/-- The categories declared on the fare_group column by the equal-width
fallback (src/app.py line 47). -/
def fareCut3Cats : List String := ["Low", "Medium", "High"]

/-- `Series.value_counts()` on a categorical-dtype column whose declared
category list is `cats`: one entry for every declared category, observed or
not, with its number of occurrences (so unobserved categories appear with
count 0), sorted by descending count; missing values are still dropped. -/
def valueCountsCat (cats : List String) (col : List (Option String)) :
    List (String × ℕ) :=
  List.insertionSort sndDesc (cats.map (fun v => (v, (col.filterMap id).count v)))

/-- src/titanic/app.py `get_composition_fig` lines 45 to 59 on one of the two
categorical feature columns: `cats` is the column's declared category list
(`ageGroupCats` for age_group; `fareQ4Cats` or `fareCut3Cats` for fare_group
depending on which branch built the column). -/
def get_composition_fig_titanic_cat (t : List PrepRow) (f : Feature)
    (cats : List String) : List (String × ℕ) :=
  valueCountsCat cats (t.map (featVal f))

/-- Whether a feature column carries a plain (object or integer) dtype;
age_group and fare_group are categorical instead. -/
def isObjectFeature : Feature → Bool
  | Feature.pclass => true
  | Feature.sexLabel => true
  | Feature.ageGroup => false
  | Feature.embarked => true
  | Feature.familySize => true
  | Feature.fareGroup => false

/-- src/titanic/graph.py `Survival` lines 8 to 18: the pie sizes are
`value_counts()` of the survived column, and `plt.pie(sizes, labels)` pairs
the fixed two-label list with them positionally only when the lengths agree;
on a length mismatch matplotlib raises ValueError, modelled as the error
branch. -/
def survival_pie (t : List ℕ) : Except String (List (String × ℕ)) :=
  let sizes := (valueCounts t).map (fun p => p.2)
  let labels := ["Did not survive", "Survived"]
  if labels.length = sizes.length then Except.ok (List.zip labels sizes)
  else Except.error "ValueError: label must be of length x"

theorem mem_zipWith {α β γ : Type} {f : α → β → γ} {c : γ} :
    ∀ {as : List α} {bs : List β}, c ∈ List.zipWith f as bs →
      ∃ a b, c = f a b := by
  intro as
  induction as with
  | nil => intro bs h; simp at h
  | cons a at' ih =>
    intro bs h
    cases bs with
    | nil => simp at h
    | cons b bt =>
      rcases List.mem_cons.mp h with he | ht
      · exact ⟨a, b, he⟩
      · exact ih ht

theorem clean_true_eq (raw : List RawRow) :
    clean true raw =
      match seriesModeHead (raw.map (fun r => r.embarked)) with
      | none => Except.error "KeyError: 0 on the empty mode series"
      | some emb =>
        Except.ok (List.zipWith
          (mkPrepRow (meanAge (raw.map (fun r => r.age))) emb) raw
          (fare_group_app (raw.map (fun r => r.fare)))) := by
  unfold clean fare_group_app
  cases hm : seriesModeHead (raw.map (fun r => r.embarked)) with
  | none => simp
  | some emb =>
    cases hq : fareQcut (raw.map (fun r => r.fare)) with
    | ok fg => simp [hq]
    | error e => simp [hq]

theorem prepare_app_row_shape {raw : List RawRow} {prep surv : List PrepRow}
    (h : prepare_app raw = Except.ok (prep, surv)) :
    ∀ r ∈ prep, ∃ meanA emb x fg, r = mkPrepRow meanA emb x fg := by
  intro r hr
  unfold prepare_app at h
  by_cases hempty : raw.isEmpty
  · rw [if_pos hempty] at h
    cases h
    simp at hr
  · rw [if_neg hempty, clean_true_eq] at h
    cases hmode : seriesModeHead (raw.map (fun r => r.embarked)) with
    | none => rw [hmode] at h; cases h
    | some emb =>
      rw [hmode] at h
      cases h
      rcases mem_zipWith hr with ⟨x, g, hx⟩
      exact ⟨_, _, x, g, hx⟩

/-- C2 counterexample: the claim asserts that a row with age exactly 100 is
assigned Senior, but the half-open binning of `pd.cut(..., right := False)`
leaves age 100 outside every interval, so its age group is missing. -/
theorem c2_counterexample :
    age_group 100 = none ∧ age_group (100 : ℚ) ≠ some AgeGroup.senior := by
  have h : age_group 100 = none := by norm_num [age_group]
  exact ⟨h, by rw [h]; exact fun hc => Option.noConfusion hc⟩

/-- C2 (amended): after preparation `age_group` is consistent with the
(possibly imputed) age through fixed half-open boundaries: 0 to just below
13 Child, 13 to just below 19 Teenager, 19 to just below 60 Adult, 60 to
just below 100 Senior; an age below 0 or of at least 100 (in particular an
age of exactly 100) receives a missing age group, not Senior. -/
theorem c2_amended : ∀ a : ℚ,
    (age_group a = some AgeGroup.child ↔ 0 ≤ a ∧ a < 13) ∧
    (age_group a = some AgeGroup.teenager ↔ 13 ≤ a ∧ a < 19) ∧
    (age_group a = some AgeGroup.adult ↔ 19 ≤ a ∧ a < 60) ∧
    (age_group a = some AgeGroup.senior ↔ 60 ≤ a ∧ a < 100) ∧
    (age_group a = none ↔ a < 0 ∨ 100 ≤ a) := by
  intro a
  unfold age_group
  split_ifs with h1 h2 h3 h4 h5
  · exact ⟨⟨fun h => by simp at h, fun h => by exfalso; linarith [h.1]⟩,
      ⟨fun h => by simp at h, fun h => by exfalso; linarith [h.1]⟩,
      ⟨fun h => by simp at h, fun h => by exfalso; linarith [h.1]⟩,
      ⟨fun h => by simp at h, fun h => by exfalso; linarith [h.1]⟩,
      ⟨fun _ => Or.inl h1, fun _ => rfl⟩⟩
  · exact ⟨⟨fun _ => ⟨by linarith, h2⟩, fun _ => rfl⟩,
      ⟨fun h => by simp at h, fun h => by exfalso; linarith [h.1]⟩,
      ⟨fun h => by simp at h, fun h => by exfalso; linarith [h.1]⟩,
      ⟨fun h => by simp at h, fun h => by exfalso; linarith [h.1]⟩,
      ⟨fun h => by simp at h, fun h => by rcases h with h | h <;> exfalso <;> linarith⟩⟩
  · exact ⟨⟨fun h => by simp at h, fun h => by exfalso; linarith [h.2]⟩,
      ⟨fun _ => ⟨by linarith, h3⟩, fun _ => rfl⟩,
      ⟨fun h => by simp at h, fun h => by exfalso; linarith [h.1]⟩,
      ⟨fun h => by simp at h, fun h => by exfalso; linarith [h.1]⟩,
      ⟨fun h => by simp at h, fun h => by rcases h with h | h <;> exfalso <;> linarith⟩⟩
  · exact ⟨⟨fun h => by simp at h, fun h => by exfalso; linarith [h.2]⟩,
      ⟨fun h => by simp at h, fun h => by exfalso; linarith [h.2]⟩,
      ⟨fun _ => ⟨by linarith, h4⟩, fun _ => rfl⟩,
      ⟨fun h => by simp at h, fun h => by exfalso; linarith [h.1]⟩,
      ⟨fun h => by simp at h, fun h => by rcases h with h | h <;> exfalso <;> linarith⟩⟩
  · exact ⟨⟨fun h => by simp at h, fun h => by exfalso; linarith [h.2]⟩,
      ⟨fun h => by simp at h, fun h => by exfalso; linarith [h.2]⟩,
      ⟨fun h => by simp at h, fun h => by exfalso; linarith [h.2]⟩,
      ⟨fun _ => ⟨by linarith, h5⟩, fun _ => rfl⟩,
      ⟨fun h => by simp at h, fun h => by rcases h with h | h <;> exfalso <;> linarith⟩⟩
  · exact ⟨⟨fun h => by simp at h, fun h => by exfalso; linarith [h.2]⟩,
      ⟨fun h => by simp at h, fun h => by exfalso; linarith [h.2]⟩,
      ⟨fun h => by simp at h, fun h => by exfalso; linarith [h.2]⟩,
      ⟨fun h => by simp at h, fun h => by exfalso; linarith [h.2]⟩,
      ⟨fun _ => Or.inr (by linarith), fun _ => rfl⟩⟩

theorem foldl_min_const (c : ℚ) : ∀ n, List.foldl min c (List.replicate n c) = c := by
  intro n
  induction n with
  | zero => rfl
  | succ m ih => simpa [List.replicate_succ, min_self] using ih

theorem foldl_max_const (c : ℚ) : ∀ n, List.foldl max c (List.replicate n c) = c := by
  intro n
  induction n with
  | zero => rfl
  | succ m ih => simpa [List.replicate_succ, max_self] using ih

theorem listMin_replicate (n : ℕ) (c : ℚ) :
    listMin (List.replicate (n + 1) c) = c := by
  simp only [List.replicate_succ, listMin]
  exact foldl_min_const c n

theorem listMax_replicate (n : ℕ) (c : ℚ) :
    listMax (List.replicate (n + 1) c) = c := by
  simp only [List.replicate_succ, listMax]
  exact foldl_max_const c n

theorem insertionSort_rat_replicate (m : ℕ) (c : ℚ) :
    List.insertionSort (fun a b : ℚ => a ≤ b) (List.replicate m c)
      = List.replicate m c :=
  List.Sorted.insertionSort_eq (List.pairwise_replicate.mpr (Or.inr le_rfl))

theorem quantileOfSorted_replicate {m : ℕ} (hm : m ≠ 0) (c q : ℚ)
    (h0 : 0 ≤ q) (h1 : q ≤ 1) :
    quantileOfSorted (List.replicate m c) q = c := by
  have hm1 : (1 : ℚ) ≤ (m : ℚ) := by
    exact_mod_cast Nat.one_le_iff_ne_zero.mpr hm
  have hpos0 : 0 ≤ q * ((m : ℚ) - 1) := mul_nonneg h0 (by linarith)
  have hposle : q * ((m : ℚ) - 1) ≤ (m : ℚ) - 1 :=
    mul_le_of_le_one_left (by linarith) h1
  have hfl : ⌊q * ((m : ℚ) - 1)⌋ ≤ (m : ℤ) - 1 := by
    have h2 : ((m : ℚ) - 1) = (((m : ℤ) - 1 : ℤ) : ℚ) := by push_cast; ring
    calc ⌊q * ((m : ℚ) - 1)⌋ ≤ ⌊(m : ℚ) - 1⌋ := Int.floor_le_floor hposle
      _ = (m : ℤ) - 1 := by rw [h2, Int.floor_intCast]
  have hfl0 : 0 ≤ ⌊q * ((m : ℚ) - 1)⌋ := Int.floor_nonneg.mpr hpos0
  have hi : (⌊q * ((m : ℚ) - 1)⌋).toNat < m := by omega
  unfold quantileOfSorted
  simp only [List.length_replicate, List.getElem?_replicate]
  rw [if_pos hi]
  by_cases hi1 : (⌊q * ((m : ℚ) - 1)⌋).toNat + 1 < m
  · rw [if_pos hi1]
    simp
  · rw [if_neg hi1]

theorem fareQcut_replicate (n : ℕ) (c : ℚ) :
    fareQcut (List.replicate (n + 1) c)
      = Except.error "Bin labels must be one fewer than the number of bin edges" := by
  have hq : ∀ q : ℚ, 0 ≤ q → q ≤ 1 →
      quantileOfSorted (List.insertionSort (fun a b : ℚ => a ≤ b)
        (List.replicate (n + 1) c)) q = c := by
    intro q hq0 hq1
    rw [insertionSort_rat_replicate]
    exact quantileOfSorted_replicate (Nat.succ_ne_zero n) c q hq0 hq1
  unfold fareQcut
  rw [if_neg (by simp)]
  have hd : dedupAdj [c, c, c, c, c] = [c] := by simp [dedupAdj]
  simp only [hq 0 le_rfl (by norm_num), hq (1/4) (by norm_num) (by norm_num),
    hq (1/2) (by norm_num) (by norm_num), hq (3/4) (by norm_num) (by norm_num),
    hq 1 (by norm_num) le_rfl, hd]

theorem cut3_replicate (n : ℕ) (c : ℚ) :
    cut3 (List.replicate (n + 1) c) = List.replicate (n + 1) (some FareLabel.medium) := by
  unfold cut3
  rw [listMin_replicate, listMax_replicate, if_pos rfl]
  have hadjpos : 0 < (if c = 0 then (1 : ℚ)/1000 else |c| / 1000) := by
    split_ifs with h
    · norm_num
    · exact div_pos (abs_pos.mpr h) (by norm_num)
  rw [List.map_replicate]
  congr 1
  set adj := if c = 0 then (1 : ℚ)/1000 else |c| / 1000 with hadj
  unfold cutAssign3
  rw [if_neg (by linarith), if_neg (by intro hc; nlinarith), if_pos (by nlinarith)]

/-- A raw row with constant fare 1, used to exercise the qcut failure. -/
def rawConstFare (s : ℕ) : RawRow :=
  { survived := s
    pclass := 3
    sex := "male"
    age := some 20
    sibsp := 0
    parch := 0
    fare := 1
    embarked := some "S" }

/-- C3 counterexample: the claim says deriving fare_group never raises and the
quartile-binning failure is never propagated, but src/titanic/app.py has no
try/except around qcut, so a constant-fare table makes its preparation
propagate the pandas label-mismatch ValueError. -/
theorem c3_counterexample :
    fareQcut [(1 : ℚ), 1]
        = Except.error "Bin labels must be one fewer than the number of bin edges" ∧
      prepare_titanic [rawConstFare 0, rawConstFare 1]
        = Except.error "Bin labels must be one fewer than the number of bin edges" := by
  constructor
  · exact fareQcut_replicate 1 1
  · norm_num [prepare_titanic, clean, rawConstFare, meanAge, seriesModeHead, modeMaxCount,
      dedupFirst, fareQcut, quantileOfSorted, dedupAdj, List.insertionSort,
      List.orderedInsert]

/-- C3 (amended): in src/app.py deriving fare_group never raises: when the
quartile edges of a constant-fare table collapse, qcut fails with the pandas
label-mismatch error and the except branch derives the three equal-width
bins instead, assigning Medium to every row; in src/titanic/app.py the same
qcut failure is propagated to the caller because there is no try/except. -/
theorem c3_amended : ∀ (c : ℚ) (n : ℕ),
    fareQcut (List.replicate (n + 1) c)
        = Except.error "Bin labels must be one fewer than the number of bin edges" ∧
      fare_group_app (List.replicate (n + 1) c)
        = List.replicate (n + 1) (some FareLabel.medium) := by
  intro c n
  refine ⟨fareQcut_replicate n c, ?_⟩
  unfold fare_group_app
  rw [fareQcut_replicate n c]
  exact cut3_replicate n c

/-- C7: the survivors table built by preparation contains exactly the
prepared rows with survived equal to 1, and filtering by survived equal to 1
a second time reproduces it. -/
theorem c7_theorem : ∀ (raw : List RawRow) (prep surv : List PrepRow),
    prepare_app raw = Except.ok (prep, surv) →
    surv = prep.filter (fun r => r.survived == 1) ∧
    (∀ r, r ∈ surv ↔ r ∈ prep ∧ r.survived = 1) ∧
    (prep.filter (fun r => r.survived == 1)).filter (fun r => r.survived == 1)
      = prep.filter (fun r => r.survived == 1) := by
  intro raw prep surv h
  have hsurv : surv = prep.filter (fun r => r.survived == 1) := by
    unfold prepare_app at h
    by_cases hempty : raw.isEmpty
    · rw [if_pos hempty] at h
      cases h
      rfl
    · rw [if_neg hempty, clean_true_eq] at h
      cases hm : seriesModeHead (raw.map (fun r => r.embarked)) with
      | none => rw [hm] at h; cases h
      | some emb =>
        rw [hm] at h
        cases h
        rfl
  subst hsurv
  refine ⟨rfl, ?_, ?_⟩
  · intro r
    rw [List.mem_filter]
    constructor
    · rintro ⟨h1, h2⟩
      exact ⟨h1, by simpa using h2⟩
    · rintro ⟨h1, h2⟩
      exact ⟨h1, by simpa using h2⟩
  · rw [List.filter_filter]
    simp

/-- C7 witness: the round trip at a concrete preparation. -/
theorem c7_witness :
    prepare_app [] = Except.ok ([], []) ∧
    ([] : List PrepRow) = ([] : List PrepRow).filter (fun r => r.survived == 1) ∧
    (([] : List PrepRow).filter (fun r => r.survived == 1)).filter
        (fun r => r.survived == 1)
      = ([] : List PrepRow).filter (fun r => r.survived == 1) :=
  ⟨rfl, (c7_theorem [] [] [] rfl).1, (c7_theorem [] [] [] rfl).2.2⟩

/-- C5 counterexample: src/titanic/app.py prepares without an empty-table
guard, so the empty raw table raises inside imputation: the mode of the
empty embarked column is an empty series and taking its element 0 fails. -/
theorem c5_counterexample :
    prepare_titanic [] = Except.error "KeyError: 0 on the empty mode series" := rfl

/-- C5 (amended): in src/app.py the empty raw table is guarded: preparation
returns an empty prepared table and an empty survivors table, and the
downstream aggregations on those empty tables return empty data or the
no-data placeholder instead of raising; in src/titanic/app.py the unguarded
imputation raises on the empty table. -/
theorem c5_amended :
    prepare_app [] = Except.ok ([], []) ∧
    ([] : List PrepRow).filter (fun r => r.survived == 1) = [] ∧
    (∀ f : Feature,
      get_composition_fig_titanic [] f = [] ∧
      get_survival_fig_app [] [] f = none ∧
      get_survival_fig_titanic [] f = []) :=
  ⟨rfl, rfl, fun _ => ⟨rfl, rfl, rfl⟩⟩

/-- A prepared male row (sex_label Male) with the given survived flag. -/
def mkMale (s : ℕ) : PrepRow :=
  { survived := s
    pclass := 3
    sex := "male"
    age := some 30
    sibsp := 0
    parch := 0
    fare := 8
    embarked := "S"
    sex_label := some "Male"
    age_group := some AgeGroup.adult
    family_size := 1
    fare_group := some FareLabel.q1 }

/-- A prepared female row (sex_label Female) with the given survived flag. -/
def mkFemale (s : ℕ) : PrepRow :=
  { survived := s
    pclass := 1
    sex := "female"
    age := some 30
    sibsp := 0
    parch := 0
    fare := 80
    embarked := "C"
    sex_label := some "Female"
    age_group := some AgeGroup.adult
    family_size := 1
    fare_group := some FareLabel.q4 }

theorem mem_map_pair {K B : Type} {keys : List K} {f : K → B} {k : K} {r : B} :
    (k, r) ∈ keys.map (fun k => (k, f k)) ↔ k ∈ keys ∧ r = f k := by
  constructor
  · intro h
    rcases List.mem_map.mp h with ⟨x, hx, he⟩
    have h1 : x = k := congrArg Prod.fst he
    have h2 : f x = r := congrArg Prod.snd he
    subst h1
    exact ⟨hx, h2.symm⟩
  · rintro ⟨hk, rfl⟩
    exact List.mem_map_of_mem _ hk

/-- C1 counterexample: the claim says the rate is never computed over the
already-filtered survivors table regardless of which table is passed, but
src/titanic/app.py's rate-figure function computes over whichever table it
receives: on the survivors filter of a Male 0, Male 1 table it reports 100
instead of the full-population 50. -/
theorem c1_counterexample :
    get_survival_fig_titanic
        (([mkMale 0, mkMale 1]).filter (fun r => r.survived == 1))
        Feature.sexLabel = [("Male", 100)] ∧
      get_survival_fig_titanic [mkMale 0, mkMale 1] Feature.sexLabel
        = [("Male", 50)] ∧
      ([("Male", (100 : ℚ))] : List (String × ℚ)) ≠ [("Male", 50)] := by
  have hfilter : ([mkMale 0, mkMale 1]).filter (fun r => r.survived == 1)
      = [mkMale 1] := by decide
  have hk1 : groupKeys (projTable Feature.sexLabel [mkMale 1]) = ["Male"] := by decide
  have hk2 : groupKeys (projTable Feature.sexLabel [mkMale 0, mkMale 1])
      = ["Male"] := by decide
  have hc1 : groupCount (projTable Feature.sexLabel [mkMale 1]) "Male" = 1 := by decide
  have hs1 : groupSurvSum (projTable Feature.sexLabel [mkMale 1]) "Male" = 1 := by decide
  have hc2 : groupCount (projTable Feature.sexLabel [mkMale 0, mkMale 1]) "Male" = 2 := by
    decide
  have hs2 : groupSurvSum (projTable Feature.sexLabel [mkMale 0, mkMale 1]) "Male" = 1 := by
    decide
  refine ⟨?_, ?_, by norm_num⟩
  · rw [hfilter]
    simp only [get_survival_fig_titanic, calculate_survival_rate, hk1, List.map_cons,
      List.map_nil, groupMean, hc1, hs1]
    norm_num
  · simp only [get_survival_fig_titanic, calculate_survival_rate, hk2, List.map_cons,
      List.map_nil, groupMean, hc2, hs2]
    norm_num

/-- C1 (amended): in src/app.py the rate figure computes the survival rate by
grouping the module-level full population table and ignores which table is
passed (beyond the emptiness guard), so it is identical for any two nonempty
passed tables; in src/titanic/app.py the rate is computed over the table
actually passed, and only the callback's choice to always pass the full
table keeps the displayed rate a full-population rate. -/
theorem c1_amended : ∀ (f : Feature) (full d1 d2 : List PrepRow),
    d1 ≠ [] → d2 ≠ [] →
    get_survival_fig_app full d1 f = get_survival_fig_app full d2 f ∧
    get_survival_fig_app full d1 f
      = some (survival_rate_app (projTable f full)) := by
  intro f full d1 d2 h1 h2
  have e1 : d1.isEmpty = false := by
    cases d1 with
    | nil => exact absurd rfl h1
    | cons a l => rfl
  have e2 : d2.isEmpty = false := by
    cases d2 with
    | nil => exact absurd rfl h2
    | cons a l => rfl
  constructor <;> simp [get_survival_fig_app, e1, e2]

/-- C1 witness: the amended theorem at two concrete nonempty tables. -/
theorem c1_witness :
    get_survival_fig_app [mkMale 0, mkMale 1] [mkMale 0] Feature.sexLabel
        = get_survival_fig_app [mkMale 0, mkMale 1] [mkMale 1] Feature.sexLabel ∧
      get_survival_fig_app [mkMale 0, mkMale 1] [mkMale 0] Feature.sexLabel
        = some (survival_rate_app
            (projTable Feature.sexLabel [mkMale 0, mkMale 1])) :=
  c1_amended Feature.sexLabel [mkMale 0, mkMale 1] [mkMale 0] [mkMale 1]
    (by simp) (by simp)

/-- C4 counterexample: the claim says the rate operation returns the
per-group value rounded to exactly one decimal place, but on a group of
three rows with one survivor the titanic variant returns the unrounded
100/3 and the src/app.py variant returns the two-decimal 33.33, while the
one-decimal value (under either rounding rule) is 33.3. -/
theorem c4_counterexample :
    calculate_survival_rate
        (projTable Feature.sexLabel [mkMale 0, mkMale 0, mkMale 1])
        = [("Male", 100/3)] ∧
      survival_rate_app
        (projTable Feature.sexLabel [mkMale 0, mkMale 0, mkMale 1])
        = [("Male", 3333/100)] ∧
      roundq 1 ((100 : ℚ)/3) = 333/10 ∧
      ((100 : ℚ)/3) ≠ 333/10 ∧
      ((3333 : ℚ)/100) ≠ 333/10 := by
  have hk : groupKeys (projTable Feature.sexLabel [mkMale 0, mkMale 0, mkMale 1])
      = ["Male"] := by decide
  have hc : groupCount (projTable Feature.sexLabel [mkMale 0, mkMale 0, mkMale 1])
      "Male" = 3 := by decide
  have hs : groupSurvSum (projTable Feature.sexLabel [mkMale 0, mkMale 0, mkMale 1])
      "Male" = 1 := by decide
  refine ⟨?_, ?_, ?_, by norm_num, by norm_num⟩
  · simp only [calculate_survival_rate, hk, List.map_cons, List.map_nil, groupMean,
      hc, hs]
    norm_num
  · simp only [survival_rate_app, hk, List.map_cons, List.map_nil, groupMean, hc, hs]
    norm_num [roundq, roundHalfEven, List.insertionSort, List.orderedInsert]
  · norm_num [roundq, roundHalfEven]

/-- C4 (amended): for every table and categorical feature, the rate
operations return exactly one entry per observed category whose value is
100 times the group mean of survived, unrounded in src/titanic/app.py and
rounded to two decimal places (ties to even) in src/app.py; on the
Male 0, Male 1, Female 1 example both return exactly 50 for Male and 100
for Female. -/
theorem c4_amended :
    (∀ (t : List (Option String × ℕ)) (k : String) (r : ℚ),
      ((k, r) ∈ calculate_survival_rate t ↔
        k ∈ groupKeys t ∧ r = groupMean t k * 100) ∧
      ((k, r) ∈ survival_rate_app t ↔
        k ∈ groupKeys t ∧ r = roundq 2 (groupMean t k * 100))) ∧
    calculate_survival_rate
        (projTable Feature.sexLabel [mkMale 0, mkMale 1, mkFemale 1])
      = [("Female", 100), ("Male", 50)] ∧
    survival_rate_app
        (projTable Feature.sexLabel [mkMale 0, mkMale 1, mkFemale 1])
      = [("Female", 100), ("Male", 50)] := by
  refine ⟨fun t k r => ⟨?_, ?_⟩, ?_, ?_⟩
  · unfold calculate_survival_rate
    exact mem_map_pair
  · unfold survival_rate_app
    rw [List.mem_insertionSort]
    exact mem_map_pair
  · have hk : groupKeys (projTable Feature.sexLabel [mkMale 0, mkMale 1, mkFemale 1])
        = ["Female", "Male"] := by decide
    have hcF : groupCount (projTable Feature.sexLabel [mkMale 0, mkMale 1, mkFemale 1])
        "Female" = 1 := by decide
    have hsF : groupSurvSum (projTable Feature.sexLabel [mkMale 0, mkMale 1, mkFemale 1])
        "Female" = 1 := by decide
    have hcM : groupCount (projTable Feature.sexLabel [mkMale 0, mkMale 1, mkFemale 1])
        "Male" = 2 := by decide
    have hsM : groupSurvSum (projTable Feature.sexLabel [mkMale 0, mkMale 1, mkFemale 1])
        "Male" = 1 := by decide
    simp only [calculate_survival_rate, hk, List.map_cons, List.map_nil, groupMean,
      hcF, hsF, hcM, hsM]
    norm_num
  · have hk : groupKeys (projTable Feature.sexLabel [mkMale 0, mkMale 1, mkFemale 1])
        = ["Female", "Male"] := by decide
    have hcF : groupCount (projTable Feature.sexLabel [mkMale 0, mkMale 1, mkFemale 1])
        "Female" = 1 := by decide
    have hsF : groupSurvSum (projTable Feature.sexLabel [mkMale 0, mkMale 1, mkFemale 1])
        "Female" = 1 := by decide
    have hcM : groupCount (projTable Feature.sexLabel [mkMale 0, mkMale 1, mkFemale 1])
        "Male" = 2 := by decide
    have hsM : groupSurvSum (projTable Feature.sexLabel [mkMale 0, mkMale 1, mkFemale 1])
        "Male" = 1 := by decide
    simp only [survival_rate_app, hk, List.map_cons, List.map_nil, groupMean,
      hcF, hsF, hcM, hsM]
    norm_num [roundq, roundHalfEven, List.insertionSort, List.orderedInsert, sndDesc]

/-- A raw row whose sex is outside the map's domain, so sex_label is NaN. -/
def rawUnknownSex : RawRow :=
  { survived := 0
    pclass := 3
    sex := "unknown"
    age := some 30
    sibsp := 0
    parch := 0
    fare := 7
    embarked := some "S" }

/-- The prepared row produced from `rawUnknownSex`. -/
def prepUnknownSex : PrepRow :=
  { survived := 0
    pclass := 3
    sex := "unknown"
    age := some 30
    sibsp := 0
    parch := 0
    fare := 7
    embarked := "S"
    sex_label := none
    age_group := some AgeGroup.adult
    family_size := 1
    fare_group := some FareLabel.medium }

theorem length_split_count {α : Type} [DecidableEq α] (l : List α) (b : α) :
    l.length = l.count b + (l.filter (fun x => x != b)).length := by
  induction l with
  | nil => rfl
  | cons a as ih =>
    by_cases hab : a = b
    · subst hab
      have h2 : (a :: as).filter (fun x => x != a) = as.filter (fun x => x != a) := by
        simp [List.filter_cons]
      rw [h2, List.count_cons_self, List.length_cons, ih]
      omega
    · have hba : b ≠ a := fun h => hab h.symm
      have h1 : (a :: as).count b = as.count b := by
        simp [List.count_cons, hba]
      have h2 : (a :: as).filter (fun x => x != b)
          = a :: as.filter (fun x => x != b) := by
        simp [List.filter_cons, hab]
      rw [h1, h2, List.length_cons, List.length_cons, ih]
      omega
theorem sum_counts_nodup_super {α : Type} [DecidableEq α] :
    ∀ {d : List α}, d.Nodup → ∀ {l : List α}, (∀ v ∈ l, v ∈ d) →
      (d.map (fun v => l.count v)).sum = l.length := by
  intro d
  induction d with
  | nil =>
    intro _ l hsub
    cases l with
    | nil => rfl
    | cons a as => exact absurd (hsub a (List.mem_cons_self a as)) (by simp)
  | cons b bs ih =>
    intro hnd l hsub
    have hbsnd : bs.Nodup := (List.nodup_cons.mp hnd).2
    have hsub2 : ∀ v ∈ l.filter (fun x => x != b), v ∈ bs := by
      intro v hv
      have hvl : v ∈ l := (List.mem_filter.mp hv).1
      have hvb : v ≠ b := by simpa using (List.mem_filter.mp hv).2
      rcases List.mem_cons.mp (hsub v hvl) with h | h
      · exact absurd h hvb
      · exact h
    have ih2 := ih hbsnd hsub2
    have hcnt : bs.map (fun v => l.count v)
        = bs.map (fun v => (l.filter (fun x => x != b)).count v) := by
      apply List.map_congr_left
      intro v hv
      have hvb : v ≠ b := fun h => (List.nodup_cons.mp hnd).1 (h ▸ hv)
      have hvb2 : ((fun x : α => x != b) v) = true := by simpa using hvb
      exact (@List.count_filter α _ _ (fun x => x != b) v l hvb2).symm
    simp only [List.map_cons, List.sum_cons, hcnt, ih2]
    exact (length_split_count l b).symm

theorem valueCountsCat_sum {cats : List String} {col : List (Option String)}
    (hnd : cats.Nodup) (hsub : ∀ v ∈ col.filterMap id, v ∈ cats) :
    ((valueCountsCat cats col).map (fun p => p.2)).sum
      = (col.filterMap id).length := by
  have hperm : List.Perm (valueCountsCat cats col)
      (cats.map (fun v => (v, (col.filterMap id).count v))) :=
    List.perm_insertionSort _ _
  have := (hperm.map (fun p : String × ℕ => p.2)).sum_eq
  rw [this, List.map_map]
  simpa using sum_counts_nodup_super hnd hsub

theorem valueCountsCat_mem {cats : List String} {col : List (Option String)}
    {k : String} {c : ℕ} :
    (k, c) ∈ valueCountsCat cats col ↔
      k ∈ cats ∧ c = (col.filterMap id).count k := by
  unfold valueCountsCat
  rw [List.mem_insertionSort]
  exact mem_map_pair

/-- C6 counterexample: the claim fails in two ways.  A prepared row whose sex
is outside the relabeling map has a missing sex_label, value_counts drops
it, and the composition counts of that one-row table sum to 0, not 1.  And
on the categorical age_group column value_counts synthesizes every declared
category: the composition of a one-row Adult table contains zero-count
entries such as Child, so not every returned category is observed with
count at least 1. -/
theorem c6_counterexample :
    prepare_app [rawUnknownSex] = Except.ok ([prepUnknownSex], []) ∧
    get_composition_fig_titanic [prepUnknownSex] Feature.sexLabel = [] ∧
    ((get_composition_fig_titanic [prepUnknownSex] Feature.sexLabel).map
        (fun p => p.2)).sum = 0 ∧
    ([prepUnknownSex] : List PrepRow).length = 1 ∧ (0 : ℕ) ≠ 1 ∧
    get_composition_fig_titanic_cat [mkMale 1] Feature.ageGroup ageGroupCats
      = [("Adult", 1), ("Child", 0), ("Teenager", 0), ("Senior", 0)] ∧
    ("Child", 0) ∈ get_composition_fig_titanic_cat [mkMale 1] Feature.ageGroup
      ageGroupCats ∧
    ¬ 1 ≤ (0 : ℕ) := by
  refine ⟨?_, by decide, by decide, by decide, by decide, by decide, by decide,
    by decide⟩
  norm_num [prepare_app, clean, rawUnknownSex, prepUnknownSex, meanAge, seriesModeHead,
    modeMaxCount, dedupFirst, fareQcut, quantileOfSorted, dedupAdj, cut3, cutAssign3,
    listMin, listMax, List.insertionSort, List.orderedInsert, mkPrepRow, sexLabelMap,
    age_group, List.zipWith, List.filter]
  decide

/-- C6 (amended): for every table grouped by a plain-dtype feature, the
composition counts sum to the number of rows with a non-missing value of the
feature and every returned entry is a distinct observed non-missing category
with count at least 1, none synthesized; grouped by a categorical column
whose declared category list covers the column's values, the composition has
exactly one entry per declared category - unobserved categories appearing
with count 0 - and the counts still sum to the number of rows with a
non-missing value. -/
theorem c6_amended :
    (∀ (t : List PrepRow) (f : Feature), isObjectFeature f = true →
      ((get_composition_fig_titanic t f).map (fun p => p.2)).sum
          = ((t.map (featVal f)).filterMap id).length ∧
      ∀ k c, (k, c) ∈ get_composition_fig_titanic t f →
        1 ≤ c ∧ some k ∈ t.map (featVal f) ∧
        c = ((t.map (featVal f)).filterMap id).count k) ∧
    (∀ (t : List PrepRow) (f : Feature) (cats : List String),
      cats.Nodup →
      (∀ v ∈ (t.map (featVal f)).filterMap id, v ∈ cats) →
      ((get_composition_fig_titanic_cat t f cats).map (fun p => p.2)).sum
          = ((t.map (featVal f)).filterMap id).length ∧
      ∀ k c, (k, c) ∈ get_composition_fig_titanic_cat t f cats ↔
        k ∈ cats ∧ c = ((t.map (featVal f)).filterMap id).count k) := by
  constructor
  · intro t f _
    constructor
    · exact valueCounts_sum _
    · intro k c hmem
      have h := valueCounts_mem (p := (k, c)) hmem
      have h1 : k ∈ List.filterMap id (List.map (featVal f) t) := h.1
      have h2 : c = List.count k (List.filterMap id (List.map (featVal f) t)) := h.2
      refine ⟨?_, ?_, h2⟩
      · rw [h2]
        exact List.count_pos_iff.mpr h1
      · rcases List.mem_filterMap.mp h1 with ⟨a, ha, hak⟩
        simp only [id] at hak
        exact hak ▸ ha
  · intro t f cats hnd hsub
    exact ⟨valueCountsCat_sum hnd hsub, fun k c => valueCountsCat_mem⟩

/-- C6 witness: the amended theorem at one-row tables grouped by the
plain-dtype sex label and by the categorical age group. -/
theorem c6_witness :
    ("Male", 1) ∈ get_composition_fig_titanic [mkMale 1] Feature.sexLabel ∧
    (1 ≤ 1 ∧
      some "Male" ∈ ([mkMale 1] : List PrepRow).map (featVal Feature.sexLabel) ∧
      1 = ((([mkMale 1] : List PrepRow).map
        (featVal Feature.sexLabel)).filterMap id).count "Male") ∧
    ((get_composition_fig_titanic_cat [mkMale 1] Feature.ageGroup
        ageGroupCats).map (fun p => p.2)).sum
      = ((([mkMale 1] : List PrepRow).map
          (featVal Feature.ageGroup)).filterMap id).length :=
  ⟨by decide, (c6_amended.1 [mkMale 1] Feature.sexLabel rfl).2 "Male" 1 (by decide),
    (c6_amended.2 [mkMale 1] Feature.ageGroup ageGroupCats (by decide)
      (by decide)).1⟩

theorem foldr_max_le {vals : List String} {f : String → ℕ} {v : String}
    (h : v ∈ vals) : f v ≤ vals.foldr (fun u m => max (f u) m) 0 := by
  induction vals with
  | nil => cases h
  | cons a as ih =>
    rcases List.mem_cons.mp h with he | ht
    · subst he
      exact le_max_left _ _
    · exact le_trans (ih ht) (le_max_right _ _)

theorem sorted_head_min {l : List String} {v : String}
    (hs : List.Sorted strAsc l) (hh : l.head? = some v) : ∀ w ∈ l, v ≤ w := by
  intro w hw
  cases l with
  | nil => cases hh
  | cons a t =>
    have hav : a = v := by cases hh; rfl
    subst hav
    rcases List.mem_cons.mp hw with he | ht
    · cases he
      exact le_rfl
    · exact List.rel_of_sorted_cons hs _ ht

/-- C9 counterexample: the claim says mode ties are broken by
first-encountered order, but `mode()[0]` sorts the tied values and takes the
smallest: on a column with two S before two C, the code fills with C while
the first-encountered most frequent value is S. -/
theorem c9_counterexample :
    seriesModeHead [some "S", some "S", some "C", some "C", none] = some "C" ∧
    specFirstEncounteredMode [some "S", some "S", some "C", some "C", none]
      = some "S" ∧
    (some "C" : Option String) ≠ some "S" := by
  refine ⟨by decide, by decide, by decide⟩

/-- C9 (amended): the embarked fill value picked by `mode()[0]` is a
non-missing value of the column of maximal occurrence count, and among the
values tied for that maximal count it is the least in ascending sort order,
not the first-encountered one. -/
theorem c9_amended : ∀ (col : List (Option String)) (v : String),
    seriesModeHead col = some v →
    some v ∈ col ∧
    (∀ w, (col.filterMap id).count w ≤ (col.filterMap id).count v) ∧
    (∀ w, some w ∈ col →
      (col.filterMap id).count w = (col.filterMap id).count v → v ≤ w) := by
  intro col v h
  unfold seriesModeHead at h
  have hsorted : List.Sorted strAsc (List.insertionSort strAsc
      ((dedupFirst (col.filterMap id)).filter
        (fun u => (col.filterMap id).count u == modeMaxCount col))) :=
    List.sorted_insertionSort _ _
  have hvmem : v ∈ List.insertionSort strAsc
      ((dedupFirst (col.filterMap id)).filter
        (fun u => (col.filterMap id).count u == modeMaxCount col)) := by
    cases hl : List.insertionSort strAsc
        ((dedupFirst (col.filterMap id)).filter
          (fun u => (col.filterMap id).count u == modeMaxCount col)) with
    | nil => rw [hl] at h; cases h
    | cons a t =>
      rw [hl] at h
      cases h
      exact List.mem_cons_self _ _
  have hvtied := (List.mem_insertionSort _).mp hvmem
  have hvparts := List.mem_filter.mp hvtied
  have hvcount : (col.filterMap id).count v = modeMaxCount col := by
    simpa using hvparts.2
  have hvxs : v ∈ col.filterMap id := mem_dedupFirst.mp hvparts.1
  have hvcol : some v ∈ col := by
    rcases List.mem_filterMap.mp hvxs with ⟨a, ha, hav⟩
    simp only [id] at hav
    exact hav ▸ ha
  refine ⟨hvcol, ?_, ?_⟩
  · intro w
    by_cases hw : w ∈ col.filterMap id
    · have hbound : (col.filterMap id).count w ≤ modeMaxCount col := by
        have := foldr_max_le (f := fun u => (col.filterMap id).count u)
          (mem_dedupFirst.mpr hw)
        simpa [modeMaxCount] using this
      rw [hvcount]
      exact hbound
    · rw [List.count_eq_zero.mpr hw]
      exact Nat.zero_le _
  · intro w hwcol hweq
    have hwxs : w ∈ col.filterMap id :=
      List.mem_filterMap.mpr ⟨some w, hwcol, rfl⟩
    have hwtied : w ∈ (dedupFirst (col.filterMap id)).filter
        (fun u => (col.filterMap id).count u == modeMaxCount col) := by
      refine List.mem_filter.mpr ⟨mem_dedupFirst.mpr hwxs, ?_⟩
      simp [hweq, hvcount]
    exact sorted_head_min hsorted h w ((List.mem_insertionSort _).mpr hwtied)

/-- C9 witness: the amended theorem at a concrete column with a strict mode. -/
theorem c9_witness :
    seriesModeHead [some "S", some "C", some "S"] = some "S" ∧
    some "S" ∈ ([some "S", some "C", some "S"] : List (Option String)) ∧
    (([some "S", some "C", some "S"] : List (Option String)).filterMap id).count "C"
      ≤ (([some "S", some "C", some "S"] : List (Option String)).filterMap id).count "S" :=
  ⟨by decide, (c9_amended [some "S", some "C", some "S"] "S" (by decide)).1,
    (c9_amended [some "S", some "C", some "S"] "S" (by decide)).2.1 "C"⟩

/-- C10 counterexample: the claim asserts the positional label/count pairing
for every nonempty table, but `plt.pie` raises a ValueError whenever the
label list and the sizes differ in length, which happens exactly when the
survived column has a single distinct value: on the all-victims table with
one survived = 0 row the pie call raises, so no slice labelled Did not
survive exists even though the count of 0 is at least the count of 1, and
the claimed biconditional fails there. -/
theorem c10_counterexample :
    survival_pie [0] = Except.error "ValueError: label must be of length x" ∧
    ([0] : List ℕ).count 1 ≤ ([0] : List ℕ).count 0 ∧
    ¬ ((∃ s, survival_pie [0] = Except.ok s ∧
        List.lookup "Did not survive" s = some (([0] : List ℕ).count 0)) ↔
      ([0] : List ℕ).count 1 ≤ ([0] : List ℕ).count 0) := by
  have herr : survival_pie [0]
      = Except.error "ValueError: label must be of length x" := rfl
  refine ⟨herr, by decide, ?_⟩
  intro hiff
  rcases hiff.mpr (by decide) with ⟨s, hs, _⟩
  rw [herr] at hs
  cases hs

/-- C10 (amended): when both survived values occur, the two pie sizes are
the value counts in descending frequency order paired positionally with the
fixed labels, and the slice labelled Did not survive equals the number of
survived == 0 rows exactly when the count of 0 is at least the count of 1;
when the survived column has a single distinct value the label list and the
sizes differ in length and the pie call raises matplotlib's
length-mismatch ValueError instead of pairing. -/
theorem c10_theorem :
    (∀ t : List ℕ, (∀ x ∈ t, x = 0 ∨ x = 1) → 0 ∈ t → 1 ∈ t →
      ∃ s, survival_pie t = Except.ok s ∧
        (List.lookup "Did not survive" s = some (t.count 0) ↔
          t.count 1 ≤ t.count 0)) ∧
    (∀ t : List ℕ, t ≠ [] → (∀ x ∈ t, x = 0 ∨ x = 1) → (0 ∉ t ∨ 1 ∉ t) →
      survival_pie t
        = Except.error "ValueError: label must be of length x") := by
  constructor
  · intro t hx h0 h1
    have hperm2 : List.Perm (dedupFirst t) [0, 1] := by
      rw [List.perm_ext_iff_of_nodup (nodup_dedupFirst t) (by decide)]
      intro a
      rw [mem_dedupFirst]
      constructor
      · intro ha
        rcases hx a ha with h | h <;> simp [h]
      · intro ha
        rcases List.mem_cons.mp ha with h | h
        · exact h ▸ h0
        · have ha1 : a = 1 := by simpa using h
          exact ha1 ▸ h1
    have hlen : ((valueCounts t).map (fun p => p.2)).length = 2 := by
      simp [valueCounts, hperm2.length_eq]
    have hpie : survival_pie t
        = Except.ok (List.zip ["Did not survive", "Survived"]
            ((valueCounts t).map (fun p => p.2))) := by
      simp [survival_pie, hlen]
    obtain ⟨p, q, hl⟩ : ∃ p q, valueCounts t = [p, q] := by
      have hvl : (valueCounts t).length = 2 := by simpa using hlen
      cases hv : valueCounts t with
      | nil => rw [hv] at hvl; cases hvl
      | cons p rest =>
        cases rest with
        | nil => rw [hv] at hvl; simp at hvl
        | cons q rest2 =>
          cases rest2 with
          | nil => exact ⟨p, q, rfl⟩
          | cons r rest3 => rw [hv] at hvl; simp at hvl
    have hhead : (valueCounts t).head? = some p := by rw [hl]; rfl
    have hp1 : p.1 ∈ t := (valueCounts_head_mem hhead).1
    have hp2 : p.2 = t.count p.1 := (valueCounts_head_mem hhead).2
    have hpmax := valueCounts_head_max hhead
    refine ⟨_, hpie, ?_⟩
    have hzip : List.zip ["Did not survive", "Survived"]
        ((valueCounts t).map (fun p => p.2))
        = [("Did not survive", p.2), ("Survived", q.2)] := by
      rw [hl]
      rfl
    rw [hzip]
    have hlook : List.lookup "Did not survive"
        [("Did not survive", p.2), ("Survived", q.2)] = some p.2 := by
      simp [List.lookup]
    rw [hlook]
    have hk01 : p.1 = 0 ∨ p.1 = 1 := hx p.1 hp1
    constructor
    · intro he
      have he2 : p.2 = t.count 0 := by
        injection he
      rcases hk01 with hz | ho
      · have hm := hpmax 1 h1
        rw [he2] at hm
        exact hm
      · have hc1 : p.2 = t.count 1 := by rw [hp2, ho]
        rw [← hc1, he2]
    · intro hle
      rcases hk01 with hz | ho
      · rw [hp2, hz]
      · have hc1 : p.2 = t.count 1 := by rw [hp2, ho]
        have h2 := hpmax 0 h0
        rw [hc1] at h2
        have heq : t.count 0 = t.count 1 := le_antisymm h2 hle
        rw [hc1, heq]
  · intro t hne hx hnot
    have hsingle : ∃ v, List.Perm (dedupFirst t) [v] := by
      rcases hnot with hn0 | hn1
      · refine ⟨1, ?_⟩
        rw [List.perm_ext_iff_of_nodup (nodup_dedupFirst t) (by decide)]
        intro a
        rw [mem_dedupFirst]
        constructor
        · intro ha
          rcases hx a ha with h | h
          · exact absurd (h ▸ ha) hn0
          · simp [h]
        · intro ha
          have ha1 : a = 1 := by simpa using ha
          subst ha1
          cases t with
          | nil => exact absurd rfl hne
          | cons b bs =>
            rcases hx b (List.mem_cons_self b bs) with h | h
            · exact absurd (h ▸ List.mem_cons_self b bs) hn0
            · exact h ▸ List.mem_cons_self b bs
      · refine ⟨0, ?_⟩
        rw [List.perm_ext_iff_of_nodup (nodup_dedupFirst t) (by decide)]
        intro a
        rw [mem_dedupFirst]
        constructor
        · intro ha
          rcases hx a ha with h | h
          · simp [h]
          · exact absurd (h ▸ ha) hn1
        · intro ha
          have ha0 : a = 0 := by simpa using ha
          subst ha0
          cases t with
          | nil => exact absurd rfl hne
          | cons b bs =>
            rcases hx b (List.mem_cons_self b bs) with h | h
            · exact h ▸ List.mem_cons_self b bs
            · exact absurd (h ▸ List.mem_cons_self b bs) hn1
    rcases hsingle with ⟨v, hperm1⟩
    have hlen : ((valueCounts t).map (fun p => p.2)).length = 1 := by
      simp [valueCounts, hperm1.length_eq]
    simp [survival_pie, hlen]

/-- C10 witness: both branches of the amended theorem at concrete tables. -/
theorem c10_witness :
    survival_pie [0, 0, 1]
        = Except.ok [(("Did not survive" : String), (2 : ℕ)), ("Survived", 1)] ∧
    (List.lookup "Did not survive"
        [(("Did not survive" : String), (2 : ℕ)), ("Survived", 1)]
        = some (([0, 0, 1] : List ℕ).count 0) ↔
      ([0, 0, 1] : List ℕ).count 1 ≤ ([0, 0, 1] : List ℕ).count 0) ∧
    survival_pie [1, 1]
      = Except.error "ValueError: label must be of length x" := by
  have h1 : survival_pie [0, 0, 1]
      = Except.ok [(("Did not survive" : String), (2 : ℕ)), ("Survived", 1)] := rfl
  refine ⟨h1, ?_, c10_theorem.2 [1, 1] (by decide) (by decide) (by decide)⟩
  rcases c10_theorem.1 [0, 0, 1] (by decide) (by decide) (by decide) with ⟨s, hs, hiff⟩
  have hse := hs.symm.trans h1
  injection hse with hseq
  rw [← hseq]
  exact hiff
